import Mathlib

/-!
Verification of the domain-monitor resolution-and-cache engine.

This file shallowly embeds the Go sources of the repository
(configuration/rdap.go, configuration/domain.configuration.go,
handlers/domains.handler.go) and proves the frozen claims about them.

Modelling conventions:
* Go strings are lists of characters (GoStr).
* Go pointers that may be nil become Option.
* Network and JSON-decoding boundaries (http.Client.Get, io.ReadAll,
  json.Unmarshal) are modelled as oracle inputs: a response record carries
  the transport error, the status code, and the already-decoded payloads,
  so the control flow that inspects them is translated faithfully.
* time.Time values are records of the parsed calendar fields plus the
  zone offset; instants are compared through a civil-date conversion.
-/

namespace DomainMonitor

/-- Go strings, modelled as lists of characters. -/
abbrev GoStr := List Char

/-- Coerce a Lean string literal to the Go-string model. -/
def str (s : String) : GoStr := s.data

/-- JSON values as they appear in Go interface-typed holes
(vcardArray entries, bootstrap services).  Only the string / array /
other distinction matters to the code's type assertions. -/
inductive JVal where
  | jstr : GoStr → JVal
  | jarr : List JVal → JVal
  | jother : JVal

/-- Go type assertion x.(string). -/
def asStr : JVal → Option GoStr
  | .jstr s => some s
  | _ => none

/-- Go type assertion x.([]interface\x7b\x7d). -/
def asArr : JVal → Option (List JVal)
  | .jarr xs => some xs
  | _ => none

/-! ## RDAP response structures (rdap.go, lines 15-62) -/

/-- rdapLink (rdap.go). -/
structure RdapLink where
  value : GoStr
  rel : GoStr
  href : GoStr
  linkType : GoStr

/-- rdapNameserver (rdap.go). -/
structure RdapNameserver where
  objectClassName : GoStr
  ldhName : GoStr
  links : List RdapLink

/-- rdapEntity (rdap.go). -/
structure RdapEntity where
  objectClassName : GoStr
  handle : GoStr
  vcardArray : List JVal
  roles : List GoStr

/-- rdapEvent (rdap.go). -/
structure RdapEvent where
  eventAction : GoStr
  eventDate : GoStr

/-- rdapPublicID (rdap.go). -/
structure RdapPublicID where
  pidType : GoStr
  identifier : GoStr

/-- rdapDomain (rdap.go): the decoded RDAP domain object. -/
structure RdapDomain where
  objectClassName : GoStr
  handle : GoStr
  ldhName : GoStr
  nameservers : List RdapNameserver
  status : List GoStr
  entities : List RdapEntity
  events : List RdapEvent
  publicIds : List RdapPublicID
  links : List RdapLink

/-- rdapError (rdap.go): the structured RDAP error payload. -/
structure RdapError where
  errorCode : Int
  title : GoStr
  description : List GoStr
deriving DecidableEq

/-! ## Timestamps: the model of Go time.Time and time.Parse

convertRDAPToWhoisInfo parses event dates with
time.Parse(time.RFC3339, s) and, on failure, with the secondary layout
"2006-01-02T15:04:05Z" (a literal Z, interpreted as UTC).  We model a
parsed time as its calendar fields plus the zone offset. -/

/-- A parsed time.Time value: calendar fields plus zone offset. -/
structure DateTime where
  year : Int
  month : Nat
  day : Nat
  hour : Nat
  minute : Nat
  second : Nat
  nanos : Nat
  offsetMinutes : Int
deriving DecidableEq, Repr

/-- Decimal value of a digit character, if it is one. -/
def digitVal (c : Char) : Option Nat :=
  if 48 ≤ c.toNat ∧ c.toNat ≤ 57 then some (c.toNat - 48) else none

/-- Read exactly n decimal digits, accumulating their value. -/
def readFixed : Nat → Nat → List Char → Option (Nat × List Char)
  | 0, acc, cs => some (acc, cs)
  | k + 1, acc, cs =>
    match cs with
    | [] => none
    | c :: rest =>
      match digitVal c with
      | some d => readFixed k (acc * 10 + d) rest
      | none => none

/-- Consume one expected character. -/
def expectChar (c : Char) : List Char → Option (List Char)
  | [] => none
  | x :: rest => if x = c then some rest else none

/-- Gregorian leap-year test, as used by Go time for day-range checks. -/
def isLeap (y : Int) : Bool :=
  y % 4 = 0 && (y % 100 ≠ 0 || y % 400 = 0)

/-- Number of days in a month, as used by Go time for range checks. -/
def daysInMonth (y : Int) (m : Nat) : Nat :=
  if m = 1 then 31
  else if m = 2 then (if isLeap y then 29 else 28)
  else if m = 3 then 31
  else if m = 4 then 30
  else if m = 5 then 31
  else if m = 6 then 30
  else if m = 7 then 31
  else if m = 8 then 31
  else if m = 9 then 30
  else if m = 10 then 31
  else if m = 11 then 30
  else if m = 12 then 31
  else 0

/-- Read a fractional-second suffix: at least one digit after the dot;
nanoseconds are taken from the first nine digits, right-padded. -/
def readFrac (cs : List Char) : Option (Nat × List Char) :=
  let ds := cs.takeWhile (fun c => (digitVal c).isSome)
  let rest := cs.dropWhile (fun c => (digitVal c).isSome)
  if ds = [] then none
  else
    let d9 := ds.take 9
    let v := d9.foldl (fun a c => a * 10 + ((digitVal c).getD 0)) 0
    some (v * 10 ^ (9 - d9.length), rest)

/-- Read an RFC3339 zone: Z, or a signed hh:mm offset in minutes. -/
def readZone : List Char → Option (Int × List Char)
  | [] => none
  | c :: rest =>
    if c = 'Z' then some (0, rest)
    else if c = '+' || c = '-' then
      match readFixed 2 0 rest with
      | some (hh, r1) =>
        match expectChar ':' r1 with
        | some r2 =>
          match readFixed 2 0 r2 with
          | some (mm, r3) =>
            let off : Int := (hh : Int) * 60 + (mm : Int)
            some (if c = '-' then -off else off, r3)
          | none => none
        | none => none
      | none => none
    else none

/-- Validate the calendar-field ranges exactly as Go time.Parse does. -/
def fieldsOk (y : Int) (mo d h mi se : Nat) : Bool :=
  decide (1 ≤ mo) && decide (mo ≤ 12) && decide (1 ≤ d) &&
  decide (d ≤ daysInMonth y mo) && decide (h ≤ 23) && decide (mi ≤ 59) &&
  decide (se ≤ 59)

/-- Model of Go time.Parse(time.RFC3339, s): strict four-digit year,
zero-padded fields, a literal T, an optional fractional second, and a
zone that is either Z or a signed hh:mm offset; trailing input and
out-of-range fields are rejected. -/
def parseRFC3339 (s : GoStr) : Option DateTime := do
  let (y, r) ← readFixed 4 0 s
  let r ← expectChar '-' r
  let (mo, r) ← readFixed 2 0 r
  let r ← expectChar '-' r
  let (d, r) ← readFixed 2 0 r
  let r ← expectChar 'T' r
  let (h, r) ← readFixed 2 0 r
  let r ← expectChar ':' r
  let (mi, r) ← readFixed 2 0 r
  let r ← expectChar ':' r
  let (se, r) ← readFixed 2 0 r
  let (ns, r) ←
    match r with
    | '.' :: rest => readFrac rest
    | _ => some (0, r)
  let (off, r) ← readZone r
  if r = [] && fieldsOk (y : Int) mo d h mi se then
    some ⟨(y : Int), mo, d, h, mi, se, ns, off⟩
  else none

/-- Model of Go time.Parse("2006-01-02T15:04:05Z", s): the secondary
layout used by convertRDAPToWhoisInfo.  The trailing Z is a literal in
the layout, so the value must end in Z and is interpreted as UTC; Go's
generic parser still tolerates a fractional second after the seconds. -/
def parseSecondary (s : GoStr) : Option DateTime := do
  let (y, r) ← readFixed 4 0 s
  let r ← expectChar '-' r
  let (mo, r) ← readFixed 2 0 r
  let r ← expectChar '-' r
  let (d, r) ← readFixed 2 0 r
  let r ← expectChar 'T' r
  let (h, r) ← readFixed 2 0 r
  let r ← expectChar ':' r
  let (mi, r) ← readFixed 2 0 r
  let r ← expectChar ':' r
  let (se, r) ← readFixed 2 0 r
  let (ns, r) ←
    match r with
    | '.' :: rest => readFrac rest
    | _ => some (0, r)
  let r ← expectChar 'Z' r
  if r = [] && fieldsOk (y : Int) mo d h mi se then
    some ⟨(y : Int), mo, d, h, mi, se, ns, 0⟩
  else none

/-- The date-parsing chain of convertRDAPToWhoisInfo (rdap.go 267-275):
RFC3339 first, then the secondary layout. -/
def parseEventDate (s : GoStr) : Option DateTime :=
  match parseRFC3339 s with
  | some t => some t
  | none => parseSecondary s

/-- Left-pad the decimal digits of a number to a given width. -/
def padNum (w : Nat) (n : Nat) : GoStr :=
  let ds := Nat.toDigits 10 n
  List.replicate (w - ds.length) '0' ++ ds

/-- Model of Go t.Format(time.RFC3339): no fractional second in the
layout, and a zero offset prints as Z. -/
def formatRFC3339 (t : DateTime) : GoStr :=
  padNum 4 t.year.toNat ++ ['-'] ++ padNum 2 t.month ++ ['-'] ++ padNum 2 t.day ++
  ['T'] ++ padNum 2 t.hour ++ [':'] ++ padNum 2 t.minute ++ [':'] ++ padNum 2 t.second ++
  (if t.offsetMinutes = 0 then ['Z']
   else (if 0 ≤ t.offsetMinutes then ['+'] else ['-']) ++
     padNum 2 (t.offsetMinutes.natAbs / 60) ++ [':'] ++ padNum 2 (t.offsetMinutes.natAbs % 60))

/-- Days since the Unix epoch of a civil date (standard civil-calendar
conversion, used to compare instants the way Go time.Before does). -/
def daysFromCivil (y : Int) (m d : Nat) : Int :=
  let y2 : Int := if m ≤ 2 then y - 1 else y
  let era : Int := (if 0 ≤ y2 then y2 else y2 - 399) / 400
  let yoe : Int := y2 - era * 400
  let mp : Int := ((m : Int) + 9) % 12
  let doy : Int := (153 * mp + 2) / 5 + (d : Int) - 1
  let doe : Int := yoe * 365 + yoe / 4 - yoe / 100 + doy
  era * 146097 + doe - 719468

/-- The absolute instant of a parsed time, in nanoseconds since epoch. -/
def dtInstant (t : DateTime) : Int :=
  (daysFromCivil t.year t.month t.day * 86400 +
    (t.hour : Int) * 3600 + (t.minute : Int) * 60 + (t.second : Int) -
    t.offsetMinutes * 60) * 1000000000 + (t.nanos : Int)

/-- Go t1.Before(t2): strict comparison of instants. -/
def dtBefore (t1 t2 : DateTime) : Bool := decide (dtInstant t1 < dtInstant t2)

/-- Go t1.After(t2): strict comparison of instants. -/
def dtAfter (t1 t2 : DateTime) : Bool := decide (dtInstant t2 < dtInstant t1)

/-! ## whois-parser result structures

convertRDAPToWhoisInfo fills a whoisparser.WhoisInfo.  Only the fields
the repository reads or writes are modelled; nil pointers are Option. -/

/-- whoisparser.Contact, restricted to the fields the code writes. -/
structure Contact where
  id : GoStr
  name : GoStr
  organization : GoStr
deriving DecidableEq, Repr

/-- whoisparser.Domain, restricted to the fields the code writes. -/
structure WhoisDomain where
  id : GoStr
  domain : GoStr
  status : List GoStr
  nameServers : List GoStr
  createdDate : GoStr
  createdDateInTime : Option DateTime
  updatedDate : GoStr
  updatedDateInTime : Option DateTime
  expirationDate : GoStr
  expirationDateInTime : Option DateTime
deriving DecidableEq, Repr

/-- whoisparser.WhoisInfo: Domain and Registrar are pointers in Go. -/
structure WhoisInfo where
  domain : Option WhoisDomain
  registrar : Option Contact
deriving DecidableEq, Repr

/-! ## Canonical record normalizer: convertRDAPToWhoisInfo (rdap.go 196-304) -/

/-- The nameserver loop (rdap.go 205-210): append each non-empty
ldhName to the initially empty slice, in response order. -/
def extractNameServers (nss : List RdapNameserver) : List GoStr :=
  nss.foldl (fun acc ns => if ns.ldhName ≠ [] then acc ++ [ns.ldhName] else acc) []

/-- One vCard item as the code inspects it (rdap.go 230-248): the item
must cast to an array of length at least four whose first and fourth
elements cast to strings, with a non-empty fourth element; the result
is the (field type, value) pair.  Both the fn and the org branch of the
source apply exactly these casts and the non-emptiness test. -/
def vcardItemEntry (item : JVal) : Option (GoStr × GoStr) :=
  match asArr item with
  | some itemArray =>
    if 4 ≤ itemArray.length then
      match itemArray.head? with
      | some a0 =>
        match asStr a0 with
        | some itemType =>
          match itemArray.get? 3 with
          | some a3 =>
            match asStr a3 with
            | some v => if v ≠ [] then some (itemType, v) else none
            | none => none
          | none => none
        | none => none
      | none => none
    else none
  | none => none

/-- The vCard scan loop (rdap.go 230-249): an fn item sets the name and
breaks; an org item sets organization and name only while the name is
still empty; everything else is skipped. -/
def extractVCardName : List JVal → Contact → Contact
  | [], c => c
  | item :: rest, c =>
    match vcardItemEntry item with
    | some (itemType, v) =>
      if itemType = str "fn" then { c with name := v }
      else if itemType = str "org" ∧ c.name = [] then
        extractVCardName rest { c with organization := v, name := v }
      else extractVCardName rest c
    | none => extractVCardName rest c

/-- Role check of the entity loop (rdap.go 216-224): some role equals
"registrar". -/
def hasRegistrarRole (e : RdapEntity) : Bool :=
  e.roles.any (fun role => role = str "registrar")

/-- The handle fallback at the end of the registrar extraction
(rdap.go 252-255): if the name is still empty, use the handle. -/
def finishRegistrarName (handle : GoStr) (c1 : Contact) : Contact :=
  if c1.name = [] ∧ handle ≠ [] then { c1 with name := handle } else c1

/-- The registrar contact built from one registrar entity
(rdap.go 219-256): start from the handle as ID, scan the second element
of vcardArray when it is an array, and fall back to the handle when the
name is still empty. -/
def buildRegistrarContact (entity : RdapEntity) : Contact :=
  finishRegistrarName entity.handle
    (if 1 < entity.vcardArray.length then
      match entity.vcardArray.get? 1 with
      | some (JVal.jarr vcardItems) =>
        extractVCardName vcardItems { id := entity.handle, name := [], organization := [] }
      | _ => { id := entity.handle, name := [], organization := [] }
     else { id := entity.handle, name := [], organization := [] })

/-- The entity loop (rdap.go 214-258): the first entity with the
registrar role is used and the loop breaks; later entities are ignored. -/
def findRegistrar : List RdapEntity → Option Contact
  | [] => none
  | e :: rest =>
    if hasRegistrarRole e then some (buildRegistrarContact e) else findRegistrar rest

/-- One iteration of the event loop (rdap.go 262-291): an empty date is
skipped; the date is parsed (RFC3339, then the secondary layout) and an
unparseable date is skipped; otherwise the switch on the action writes
the corresponding date fields unconditionally. -/
def applyEvent (d : WhoisDomain) (event : RdapEvent) : WhoisDomain :=
  if event.eventDate = [] then d
  else
    match parseEventDate event.eventDate with
    | none => d
    | some eventTime =>
      if event.eventAction = str "registration" then
        { d with createdDate := formatRFC3339 eventTime, createdDateInTime := some eventTime }
      else if event.eventAction = str "expiration" then
        { d with expirationDate := formatRFC3339 eventTime, expirationDateInTime := some eventTime }
      else if event.eventAction = str "last changed" ∨ event.eventAction = str "last update" then
        { d with updatedDate := formatRFC3339 eventTime, updatedDateInTime := some eventTime }
      else d

/-- convertRDAPToWhoisInfo (rdap.go 196-304): build the Domain value,
extract nameservers, run the event loop, and pair the result with the
registrar found in the entities. -/
def convertRDAPToWhoisInfo (rdap : RdapDomain) (fqdn : GoStr) : WhoisInfo :=
  let d0 : WhoisDomain :=
    { id := rdap.handle, domain := fqdn, status := rdap.status,
      nameServers := extractNameServers rdap.nameservers,
      createdDate := [], createdDateInTime := none,
      updatedDate := [], updatedDateInTime := none,
      expirationDate := [], expirationDateInTime := none }
  let d1 := rdap.events.foldl applyEvent d0
  { domain := some d1, registrar := findRegistrar rdap.entities }

/-! ## Protocol resolver: QueryRDAP (rdap.go 64-194) -/

/-- strings.Split(s, ".") from Go: the list of dot-separated segments,
never empty, with empty segments preserved. -/
def splitOnDot : List Char → List GoStr
  | [] => [[]]
  | c :: rest =>
    if c = '.' then [] :: splitOnDot rest
    else
      match splitOnDot rest with
      | [] => [[c]]
      | g :: gs => (c :: g) :: gs

/-- parts[len(parts)-1]: the top-level label used by QueryRDAP. -/
def tldOf (fqdn : GoStr) : GoStr :=
  match (splitOnDot fqdn).getLast? with
  | some t => t
  | none => []

/-- ASCII lowering of one character, the effect of strings.ToLower on
the ASCII labels the fallback table holds. -/
def toLowerChar (c : Char) : Char :=
  if 65 ≤ c.toNat ∧ c.toNat ≤ 90 then Char.ofNat (c.toNat + 32) else c

/-- strings.ToLower restricted to ASCII. -/
def toLowerStr (s : GoStr) : GoStr := s.map toLowerChar

/-- The static fallback table of getFallbackRDAPServer (rdap.go 180-186),
as an association list. -/
def fallbackServers : List (GoStr × GoStr) :=
  [ (str "dev", str "https://rdap.org"),
    (str "com", str "https://rdap.org"),
    (str "net", str "https://rdap.org"),
    (str "org", str "https://rdap.org"),
    (str "io", str "https://rdap.org") ]

/-- getFallbackRDAPServer (rdap.go 178-194): look the lowercased TLD up
in the static table, defaulting to the catch-all endpoint. -/
def getFallbackRDAPServer (tld : GoStr) : GoStr :=
  match fallbackServers.find? (fun p => p.1 = toLowerStr tld) with
  | some p => p.2
  | none => str "https://rdap.org"

/-- strings.TrimSuffix(s, "/"): drop one trailing slash if present. -/
def trimSuffixSlash (s : GoStr) : GoStr :=
  if s.getLast? = some '/' then s.dropLast else s

/-- The inner loop of the bootstrap scan (rdap.go 158-170): for each
element of the TLD array that is a string equal to the wanted TLD, cast
the service's second element to an array; if that fails or the array is
empty, continue; if its first element is a string, return it with a
trailing slash removed; otherwise keep scanning. -/
def findInTlds (serversVal : JVal) (tld : GoStr) : List JVal → Option GoStr
  | [] => none
  | t :: ts =>
    match asStr t with
    | some tStr =>
      if tStr = tld then
        match asArr serversVal with
        | some (srv0 :: _) =>
          match asStr srv0 with
          | some serverURL => some (trimSuffixSlash serverURL)
          | none => findInTlds serversVal tld ts
        | _ => findInTlds serversVal tld ts
      else findInTlds serversVal tld ts
    | none => findInTlds serversVal tld ts

/-- The outer loop of the bootstrap scan (rdap.go 152-172): services
with fewer than two elements, or whose first element is not an array,
are skipped. -/
def findServerInServices (tld : GoStr) : List (List JVal) → Option GoStr
  | [] => none
  | service :: rest =>
    let found :=
      if 2 ≤ service.length then
        match service.head? with
        | some s0 =>
          match asArr s0 with
          | some tlds =>
            match service.get? 1 with
            | some s1 => findInTlds s1 tld tlds
            | none => none
          | none => none
        | none => none
      else none
    match found with
    | some url => some url
    | none => findServerInServices tld rest

/-- The observable outcome of the bootstrap HTTP call
(rdap.go 124-149), with the JSON decoding of the body modelled as an
oracle field. -/
structure BootstrapResponse where
  transportError : Option GoStr
  status : Nat
  readErr : Bool
  servicesDecode : Option (List (List JVal))

/-- getRDAPServerFromBootstrap (rdap.go 120-175): transport errors,
non-200 statuses, read failures, undecodable bodies, and a fruitless
scan all produce an error; otherwise the discovered URL is returned. -/
def getRDAPServerFromBootstrap (b : BootstrapResponse) (tld : GoStr) : Except GoStr GoStr :=
  match b.transportError with
  | some e => .error e
  | none =>
    if b.status ≠ 200 then .error (str "bootstrap returned status")
    else if b.readErr then .error (str "read failed")
    else
      match b.servicesDecode with
      | none => .error (str "unmarshal failed")
      | some services =>
        match findServerInServices tld services with
        | some url => .ok url
        | none => .error (str "no RDAP server found for TLD")

/-- The observable outcome of the record-fetch HTTP call
(rdap.go 89-113), with the two JSON decodings of the body (into
rdapError and into rdapDomain) modelled as oracle fields. -/
structure FetchResponse where
  transportError : Option GoStr
  status : Nat
  errDecode : Option RdapError
  readErr : Bool
  domDecode : Option RdapDomain

/-- The error taxonomy of QueryRDAP, one constructor per fmt.Errorf
site (rdap.go 69, 91, 99, 101, 106, 112). -/
inductive RErr where
  | invalidDomain : GoStr → RErr
  | queryFailed : GoStr → RErr
  | rdapTitle : GoStr → RErr
  | statusErr : Nat → RErr
  | readFailed : RErr
  | parseFailed : RErr
deriving DecidableEq, Repr

/-- The response handling of the record fetch (rdap.go 89-116): a
transport error fails; a non-200 status surfaces the decoded error
title when present and the raw status otherwise; a read or decode
failure fails; a decoded body goes to the normalizer. -/
def fetchResult (fqdn : GoStr) (resp : FetchResponse) : Except RErr WhoisInfo :=
  match resp.transportError with
  | some e => .error (.queryFailed e)
  | none =>
    if resp.status ≠ 200 then
      match resp.errDecode with
      | some rdapErr =>
        if rdapErr.title ≠ [] then .error (.rdapTitle rdapErr.title)
        else .error (.statusErr resp.status)
      | none => .error (.statusErr resp.status)
    else if resp.readErr then .error .readFailed
    else
      match resp.domDecode with
      | some rdapDomainResp => .ok (convertRDAPToWhoisInfo rdapDomainResp fqdn)
      | none => .error .parseFailed

/-- The record-fetch stage of QueryRDAP (rdap.go 81-116): build the
domain URL from the chosen endpoint and the FQDN, issue the request,
and handle the response. -/
def fetchDomain (fetch : GoStr → FetchResponse) (serverURL fqdn : GoStr) :
    Except RErr WhoisInfo :=
  fetchResult fqdn (fetch (serverURL ++ str "/domain/" ++ fqdn))

/-- The endpoint QueryRDAP settles on (rdap.go 74-79): the bootstrap
answer, or the static fallback on any bootstrap error. -/
def chosenServerURL (bresp : BootstrapResponse) (tld : GoStr) : GoStr :=
  match getRDAPServerFromBootstrap bresp tld with
  | .ok url => url
  | .error _ => getFallbackRDAPServer tld

/-- QueryRDAP (rdap.go 64-117): split the FQDN on dots, reject inputs
with fewer than two labels, choose an endpoint, and fetch the record. -/
def queryRDAP (bresp : BootstrapResponse) (fetch : GoStr → FetchResponse)
    (fqdn : GoStr) : Except RErr WhoisInfo :=
  let parts := splitOnDot fqdn
  if parts.length < 2 then .error (.invalidDomain fqdn)
  else fetchDomain fetch (chosenServerURL bresp (tldOf fqdn)) fqdn

/-! ## Monitored-domain list: domain.configuration.go -/

/-- Domain (domain.configuration.go 12-21). -/
structure Domain where
  name : GoStr
  fqdn : GoStr
  alerts : Bool
  enabled : Bool
deriving DecidableEq, Repr

/-- AddDomain (domain.configuration.go 86-100): replace the first entry
with the same FQDN in place, or append when none matches. -/
def addDomain (domain : Domain) : List Domain → List Domain
  | [] => [domain]
  | d :: rest =>
    if d.fqdn = domain.fqdn then domain :: rest else d :: addDomain domain rest

/-- RemoveDomain (domain.configuration.go 105-117): remove the first
entry with the same FQDN and stop; leave the list unchanged otherwise. -/
def removeDomain (domain : Domain) : List Domain → List Domain
  | [] => []
  | d :: rest =>
    if d.fqdn = domain.fqdn then rest else d :: removeDomain domain rest

/-- UpdateDomain (domain.configuration.go 122-124): delegates to
AddDomain. -/
def updateDomain (domain : Domain) (l : List Domain) : List Domain :=
  addDomain domain l

/-- Pairwise distinctness of the FQDNs in the monitored list. -/
def distinctFQDNs (l : List Domain) : Prop :=
  l.Pairwise (fun a b => a.fqdn ≠ b.fqdn)

/-! ## Listing sort: sortDomainsWithWhois (domains.handler.go 69-123) -/

/-- configuration.WhoisCache as the handler consumes it: the cached
WhoisInfo produced by the resolver (the struct declaration itself is in
a file outside src; only the field the handler reads is modelled). -/
structure WhoisCache where
  whoisInfo : WhoisInfo
deriving DecidableEq

/-- The WHOIS lookup attached to one domain in the first loop of
sortDomainsWithWhois (domains.handler.go 76-84): a failed lookup
attaches nil. -/
def whoisOpt (getWhois : GoStr → Except GoStr WhoisCache) (d : Domain) :
    Option WhoisCache :=
  match getWhois d.fqdn with
  | .ok w => some w
  | .error _ => none

/-- The expiration key the comparator dereferences
(domains.handler.go 93-99): nil whois, nil Domain, or nil expiration
all count as unknown. -/
def expirationKey (x : Domain × Option WhoisCache) : Option DateTime :=
  (x.2.bind (fun w => w.whoisInfo.domain)).bind (fun d => d.expirationDateInTime)

/-- The creation key of the creation_date branch
(domains.handler.go 102-108). -/
def creationKey (x : Domain × Option WhoisCache) : Option DateTime :=
  (x.2.bind (fun w => w.whoisInfo.domain)).bind (fun d => d.createdDateInTime)

/-- Go lexicographic string comparison s < t (byte order agrees with
code-point order on UTF-8). -/
def strLt : GoStr → GoStr → Bool
  | [], [] => false
  | [], _ :: _ => true
  | _ :: _, [] => false
  | a :: as, b :: bs => if a < b then true else if b < a then false else strLt as bs

/-- The comparator passed to sort.Slice (domains.handler.go 87-114). -/
def lessFn (sortBy : GoStr) (x y : Domain × Option WhoisCache) : Bool :=
  if sortBy = str "expiration_date" then
    match expirationKey x with
    | none => false
    | some ti =>
      match expirationKey y with
      | none => true
      | some tj => dtBefore ti tj
  else if sortBy = str "creation_date" then
    match creationKey x with
    | none => false
    | some ti =>
      match creationKey y with
      | none => true
      | some tj => dtAfter ti tj
  else if sortBy = str "name" then strLt x.1.name y.1.name
  else false

/-- Model of Go sort.Slice: a permutation in which no element is
strictly below a predecessor under the comparator (Go promises exactly
this post-condition for a consistent comparator; the algorithm itself
is unspecified and unstable). -/
def sortSlice (less : α → α → Bool) (l : List α) : List α :=
  l.mergeSort (fun a b => !(less b a))

/-- sortDomainsWithWhois (domains.handler.go 69-123): attach the WHOIS
cache to each domain, sort with the comparator, and project the domains
back out. -/
def sortDomainsWithWhois (getWhois : GoStr → Except GoStr WhoisCache)
    (domainList : List Domain) (sortBy : GoStr) : List Domain :=
  let domainsWithData := domainList.map (fun d => (d, whoisOpt getWhois d))
  let sorted := sortSlice (lessFn sortBy) domainsWithData
  sorted.map Prod.fst

/-- Distinctness of monitored FQDNs is decidable, so witnesses can be
checked by evaluation. -/
instance (l : List Domain) : Decidable (distinctFQDNs l) :=
  inferInstanceAs (Decidable (l.Pairwise _))

/-! ## Theorems -/

/-- Every value in the static fallback table is the catch-all endpoint,
so the lookup is constant. -/
theorem fallback_const (tld : GoStr) :
    getFallbackRDAPServer tld = str "https://rdap.org" := by
  unfold getFallbackRDAPServer
  cases h : fallbackServers.find? (fun p => decide (p.1 = toLowerStr tld)) with
  | none => rfl
  | some p =>
    have hp := List.mem_of_find?_eq_some h
    simp only [fallbackServers, List.mem_cons, List.not_mem_nil, or_false] at hp
    rcases hp with h1 | h1 | h1 | h1 | h1 <;> subst h1 <;> rfl

/-- C9: the static fallback endpoint selector is the constant function
returning the catch-all endpoint, so the chosen fallback endpoint does
not depend on the TLD. -/
theorem fallback_selector_tld_independent :
    (∀ tld : GoStr, getFallbackRDAPServer tld = str "https://rdap.org") ∧
    (∀ t1 t2 : GoStr, getFallbackRDAPServer t1 = getFallbackRDAPServer t2) := by
  refine ⟨fallback_const, fun t1 t2 => ?_⟩
  rw [fallback_const, fallback_const]

/-- The nameserver fold, with an arbitrary accumulator, appends the
non-empty host names in order. -/
lemma extractNameServers_foldl (nss : List RdapNameserver) :
    ∀ acc : List GoStr,
      nss.foldl (fun acc ns => if ns.ldhName ≠ [] then acc ++ [ns.ldhName] else acc) acc =
        acc ++ (nss.filter (fun ns => decide (ns.ldhName ≠ []))).map (fun ns => ns.ldhName) := by
  induction nss with
  | nil => intro acc; simp
  | cons ns rest ih =>
    intro acc
    by_cases h : ns.ldhName = []
    · have h1 : (if ns.ldhName ≠ [] then acc ++ [ns.ldhName] else acc) = acc := by simp [h]
      have h2 : decide (ns.ldhName ≠ []) = false := by simp [h]
      rw [List.foldl_cons, h1, ih, List.filter_cons, h2]
      simp
    · have h1 : (if ns.ldhName ≠ [] then acc ++ [ns.ldhName] else acc) = acc ++ [ns.ldhName] := by
        simp [h]
      have h2 : decide (ns.ldhName ≠ []) = true := by simp [h]
      rw [List.foldl_cons, h1, ih, List.filter_cons, h2]
      simp

/-- The event loop never touches the nameserver field. -/
lemma applyEvent_nameServers (d : WhoisDomain) (e : RdapEvent) :
    (applyEvent d e).nameServers = d.nameServers := by
  unfold applyEvent
  split
  · rfl
  · split
    · rfl
    · split
      · rfl
      · split
        · rfl
        · split <;> rfl

/-- Folding the event loop never touches the nameserver field. -/
lemma foldl_applyEvent_nameServers (events : List RdapEvent) :
    ∀ d : WhoisDomain, (events.foldl applyEvent d).nameServers = d.nameServers := by
  induction events with
  | nil => intro d; rfl
  | cons e rest ih =>
    intro d
    rw [List.foldl_cons, ih, applyEvent_nameServers]

/-- C6: the canonical nameserver sequence is exactly the host names of
the nameserver objects with a non-empty host name, in response order
(duplicates are kept, because filter and map keep them). -/
theorem nameservers_filtered_in_order (rdap : RdapDomain) (fqdn : GoStr) :
    ∃ d, (convertRDAPToWhoisInfo rdap fqdn).domain = some d ∧
      d.nameServers =
        (rdap.nameservers.filter (fun ns => decide (ns.ldhName ≠ []))).map
          (fun ns => ns.ldhName) := by
  refine ⟨_, rfl, ?_⟩
  show (rdap.events.foldl applyEvent _).nameServers = _
  rw [foldl_applyEvent_nameServers]
  show extractNameServers rdap.nameservers = _
  unfold extractNameServers
  rw [extractNameServers_foldl]
  simp

/-- Membership after AddDomain: every element was already in the list
or is the added domain. -/
lemma mem_addDomain {x domain : Domain} :
    ∀ {l : List Domain}, x ∈ addDomain domain l → x ∈ l ∨ x = domain := by
  intro l
  induction l with
  | nil =>
    intro hx
    simp only [addDomain, List.mem_singleton] at hx
    exact Or.inr hx
  | cons d rest ih =>
    intro hx
    unfold addDomain at hx
    by_cases h : d.fqdn = domain.fqdn
    · rw [if_pos h] at hx
      rcases List.mem_cons.mp hx with h1 | h1
      · exact Or.inr h1
      · exact Or.inl (List.mem_cons_of_mem _ h1)
    · rw [if_neg h] at hx
      rcases List.mem_cons.mp hx with h1 | h1
      · exact Or.inl (h1 ▸ List.mem_cons_self _ _)
      · rcases ih h1 with h2 | h2
        · exact Or.inl (List.mem_cons_of_mem _ h2)
        · exact Or.inr h2

/-- AddDomain preserves distinctness of FQDNs. -/
lemma addDomain_distinct {domain : Domain} :
    ∀ {l : List Domain}, distinctFQDNs l → distinctFQDNs (addDomain domain l) := by
  intro l
  induction l with
  | nil => intro _; simp [addDomain, distinctFQDNs]
  | cons d rest ih =>
    intro hdist
    rcases (List.pairwise_cons.mp hdist) with ⟨hhead, hrest⟩
    unfold addDomain
    by_cases h : d.fqdn = domain.fqdn
    · rw [if_pos h]
      exact List.pairwise_cons.mpr ⟨fun b hb => h ▸ hhead b hb, hrest⟩
    · rw [if_neg h]
      refine List.pairwise_cons.mpr ⟨fun b hb => ?_, ih hrest⟩
      rcases mem_addDomain hb with h1 | h1
      · exact hhead b h1
      · rw [h1]; exact h

/-- RemoveDomain yields a sublist of the input. -/
lemma removeDomain_sublist (domain : Domain) :
    ∀ l : List Domain, (removeDomain domain l).Sublist l := by
  intro l
  induction l with
  | nil => exact List.Sublist.refl []
  | cons d rest ih =>
    unfold removeDomain
    by_cases h : d.fqdn = domain.fqdn
    · rw [if_pos h]; exact List.sublist_cons_of_sublist d (List.Sublist.refl rest)
    · rw [if_neg h]; exact List.Sublist.cons₂ d ih

/-- AddDomain appends when no entry matches. -/
lemma addDomain_no_match {domain : Domain} :
    ∀ {l : List Domain}, (∀ x ∈ l, x.fqdn ≠ domain.fqdn) →
      addDomain domain l = l ++ [domain] := by
  intro l
  induction l with
  | nil => intro _; rfl
  | cons d rest ih =>
    intro hno
    unfold addDomain
    rw [if_neg (hno d (List.mem_cons_self _ _)), ih fun x hx => hno x (List.mem_cons_of_mem _ hx)]
    rfl

/-- RemoveDomain is the identity when no entry matches. -/
lemma removeDomain_no_match {domain : Domain} :
    ∀ {l : List Domain}, (∀ x ∈ l, x.fqdn ≠ domain.fqdn) → removeDomain domain l = l := by
  intro l
  induction l with
  | nil => intro _; rfl
  | cons d rest ih =>
    intro hno
    unfold removeDomain
    rw [if_neg (hno d (List.mem_cons_self _ _)), ih fun x hx => hno x (List.mem_cons_of_mem _ hx)]

/-- AddDomain replaces in place when an entry matches: the FQDN
sequence is unchanged and the new domain is present. -/
lemma addDomain_match {domain : Domain} :
    ∀ {l : List Domain}, (∃ x ∈ l, x.fqdn = domain.fqdn) →
      (addDomain domain l).map (fun d => d.fqdn) = l.map (fun d => d.fqdn) ∧
        domain ∈ addDomain domain l := by
  intro l
  induction l with
  | nil => rintro ⟨x, hx, _⟩; exact absurd hx (List.not_mem_nil x)
  | cons d rest ih =>
    rintro ⟨x, hx, hfq⟩
    unfold addDomain
    by_cases h : d.fqdn = domain.fqdn
    · rw [if_pos h]
      exact ⟨by simp [h], List.mem_cons_self _ _⟩
    · rw [if_neg h]
      rcases List.mem_cons.mp hx with h1 | h1
      · exact absurd (h1 ▸ hfq) h
      · rcases ih ⟨x, h1, hfq⟩ with ⟨hmap, hmem⟩
        exact ⟨by simp [hmap], List.mem_cons_of_mem _ hmem⟩

/-- RemoveDomain is List.eraseP with the FQDN-equality predicate: it
removes exactly the first matching entry. -/
lemma removeDomain_eq_eraseP (domain : Domain) :
    ∀ l : List Domain, removeDomain domain l = l.eraseP (fun x => x.fqdn == domain.fqdn) := by
  intro l
  induction l with
  | nil => rfl
  | cons d rest ih =>
    unfold removeDomain
    by_cases h : d.fqdn = domain.fqdn
    · have hb : (d.fqdn == domain.fqdn) = true := by simpa using h
      rw [if_pos h, List.eraseP_cons, hb, Bool.cond_true]
    · have hb : (d.fqdn == domain.fqdn) = false := by simpa using h
      rw [if_neg h, List.eraseP_cons, ih, hb, Bool.cond_false]

/-- C8: on a list with pairwise-distinct FQDNs, AddDomain replaces the
matching entry in place or appends, RemoveDomain removes at most the
first matching entry (and is the identity without a match), UpdateDomain
is AddDomain, and all three preserve distinctness. -/
theorem monitored_list_ops_preserve_distinctness (l : List Domain) (domain : Domain)
    (hdist : distinctFQDNs l) :
    distinctFQDNs (addDomain domain l) ∧
    distinctFQDNs (removeDomain domain l) ∧
    updateDomain domain l = addDomain domain l ∧
    ((∀ x ∈ l, x.fqdn ≠ domain.fqdn) →
      addDomain domain l = l ++ [domain] ∧ removeDomain domain l = l) ∧
    ((∃ x ∈ l, x.fqdn = domain.fqdn) →
      (addDomain domain l).map (fun d => d.fqdn) = l.map (fun d => d.fqdn) ∧
        domain ∈ addDomain domain l) ∧
    removeDomain domain l = l.eraseP (fun x => x.fqdn == domain.fqdn) := by
  refine ⟨addDomain_distinct hdist,
    List.Pairwise.sublist (removeDomain_sublist domain l) hdist,
    rfl,
    fun hno => ⟨addDomain_no_match hno, removeDomain_no_match hno⟩,
    fun hyes => addDomain_match hyes,
    removeDomain_eq_eraseP domain l⟩

/-- A concrete monitored list for the C8 witness. -/
def witnessList : List Domain :=
  [⟨str "Alpha", str "alpha.com", true, true⟩,
   ⟨str "Beta", str "beta.org", false, true⟩]

/-- A concrete domain sharing the second FQDN, for the C8 witness. -/
def witnessDomain : Domain := ⟨str "Beta 2", str "beta.org", true, false⟩

/-- Witness for C8 at a concrete two-element list. -/
theorem monitored_list_ops_witness :
    distinctFQDNs (addDomain witnessDomain witnessList) ∧
    distinctFQDNs (removeDomain witnessDomain witnessList) ∧
    updateDomain witnessDomain witnessList = addDomain witnessDomain witnessList ∧
    ((∀ x ∈ witnessList, x.fqdn ≠ witnessDomain.fqdn) →
      addDomain witnessDomain witnessList = witnessList ++ [witnessDomain] ∧
        removeDomain witnessDomain witnessList = witnessList) ∧
    ((∃ x ∈ witnessList, x.fqdn = witnessDomain.fqdn) →
      (addDomain witnessDomain witnessList).map (fun d => d.fqdn) =
          witnessList.map (fun d => d.fqdn) ∧
        witnessDomain ∈ addDomain witnessDomain witnessList) ∧
    removeDomain witnessDomain witnessList =
      witnessList.eraseP (fun x => x.fqdn == witnessDomain.fqdn) :=
  monitored_list_ops_preserve_distinctness witnessList witnessDomain (by decide)

/-- The date contributed by one event to a set of mapped actions: none
when the date is empty or unparseable or the action is not in the set. -/
def eventExtract (acts : List GoStr) (e : RdapEvent) : Option DateTime :=
  if e.eventDate = [] then none
  else
    match parseEventDate e.eventDate with
    | some t => if e.eventAction ∈ acts then some t else none
    | none => none

/-- The date of the last parseable event carrying one of the given
actions, in response order. -/
def lastActionDate (acts : List GoStr) (events : List RdapEvent) : Option DateTime :=
  (events.filterMap (eventExtract acts)).getLast?

/-- One event loop step, seen through the createdDateInTime field. -/
lemma applyEvent_created (d : WhoisDomain) (e : RdapEvent) :
    (applyEvent d e).createdDateInTime =
      match eventExtract [str "registration"] e with
      | some t => some t
      | none => d.createdDateInTime := by
  unfold applyEvent eventExtract
  by_cases hd : e.eventDate = []
  · simp [hd]
  · simp only [hd, if_false, ite_false]
    cases hp : parseEventDate e.eventDate with
    | none => rfl
    | some t =>
      by_cases h1 : e.eventAction = str "registration"
      · simp [h1]
      · by_cases h2 : e.eventAction = str "expiration"
        · simp +decide [h1, h2]
        · by_cases h3 : e.eventAction = str "last changed" ∨ e.eventAction = str "last update"
          · simp +decide [h1, h2, h3]
          · simp +decide [h1, h2, h3]

/-- One event loop step, seen through the expirationDateInTime field. -/
lemma applyEvent_expiration (d : WhoisDomain) (e : RdapEvent) :
    (applyEvent d e).expirationDateInTime =
      match eventExtract [str "expiration"] e with
      | some t => some t
      | none => d.expirationDateInTime := by
  unfold applyEvent eventExtract
  by_cases hd : e.eventDate = []
  · simp [hd]
  · simp only [hd, if_false, ite_false]
    cases hp : parseEventDate e.eventDate with
    | none => rfl
    | some t =>
      by_cases h1 : e.eventAction = str "registration"
      · have h2 : e.eventAction ≠ str "expiration" := by rw [h1]; decide
        simp +decide [h1, h2]
      · by_cases h2 : e.eventAction = str "expiration"
        · simp +decide [h1, h2]
        · by_cases h3 : e.eventAction = str "last changed" ∨ e.eventAction = str "last update"
          · simp +decide [h1, h2, h3]
          · simp +decide [h1, h2, h3]

/-- One event loop step, seen through the updatedDateInTime field. -/
lemma applyEvent_updated (d : WhoisDomain) (e : RdapEvent) :
    (applyEvent d e).updatedDateInTime =
      match eventExtract [str "last changed", str "last update"] e with
      | some t => some t
      | none => d.updatedDateInTime := by
  unfold applyEvent eventExtract
  by_cases hd : e.eventDate = []
  · simp [hd]
  · simp only [hd, if_false, ite_false]
    cases hp : parseEventDate e.eventDate with
    | none => rfl
    | some t =>
      by_cases h1 : e.eventAction = str "registration"
      · have h3 : ¬ (e.eventAction = str "last changed" ∨ e.eventAction = str "last update") := by
          rw [h1]; decide
        simp +decide [h1, h3]
      · by_cases h2 : e.eventAction = str "expiration"
        · have h3 : ¬ (e.eventAction = str "last changed" ∨ e.eventAction = str "last update") := by
            rw [h2]; decide
          simp +decide [h1, h2, h3]
        · by_cases h3 : e.eventAction = str "last changed" ∨ e.eventAction = str "last update"
          · simp +decide [h1, h2, h3]
          · simp +decide [h1, h2, h3]

/-- Folding the event loop, seen through any one date field: the field
ends up holding the date of the LAST matching parseable event, because
each step overwrites unconditionally. -/
lemma foldl_applyEvent_field (proj : WhoisDomain → Option DateTime) (acts : List GoStr)
    (hstep : ∀ d e, proj (applyEvent d e) =
      match eventExtract acts e with
      | some t => some t
      | none => proj d) :
    ∀ (events : List RdapEvent) (d : WhoisDomain),
      proj (events.foldl applyEvent d) =
        match lastActionDate acts events with
        | some t => some t
        | none => proj d := by
  intro events
  induction events with
  | nil => intro d; simp [lastActionDate]
  | cons e rest ih =>
    intro d
    rw [List.foldl_cons, ih (applyEvent d e), hstep d e]
    unfold lastActionDate
    rw [List.filterMap_cons]
    cases hl : (rest.filterMap (eventExtract acts)).getLast? with
    | some t =>
      have hne : rest.filterMap (eventExtract acts) ≠ [] := by
        intro hnil; rw [hnil] at hl; exact Option.noConfusion hl
      cases he : eventExtract acts e with
      | none => rw [hl]
      | some v =>
        obtain ⟨b, l2, hbl⟩ : ∃ b l2, rest.filterMap (eventExtract acts) = b :: l2 :=
          match h : rest.filterMap (eventExtract acts), hne with
          | b :: l2, _ => ⟨b, l2, rfl⟩
        rw [hbl] at hl ⊢
        rw [List.getLast?_cons_cons, hl]
    | none =>
      have hnil : rest.filterMap (eventExtract acts) = [] := by
        cases h : rest.filterMap (eventExtract acts) with
        | nil => rfl
        | cons b l2 => rw [h] at hl; simp [List.getLast?] at hl
      rw [hnil] at hl ⊢
      cases he : eventExtract acts e with
      | none => rfl
      | some v => rfl

/-- C1 (amended): the normalizer maps action "registration" to
createdAt, "expiration" to expiresAt and "last changed" / "last update"
to updatedAt, but when several parseable events carry the same mapped
action the LAST occurrence in response order determines the canonical
field: each event overwrites the field unconditionally. -/
theorem event_mapping_last_occurrence_wins (rdap : RdapDomain) (fqdn : GoStr) :
    ∃ d, (convertRDAPToWhoisInfo rdap fqdn).domain = some d ∧
      d.createdDateInTime = lastActionDate [str "registration"] rdap.events ∧
      d.expirationDateInTime = lastActionDate [str "expiration"] rdap.events ∧
      d.updatedDateInTime =
        lastActionDate [str "last changed", str "last update"] rdap.events := by
  refine ⟨_, rfl, ?_, ?_, ?_⟩
  · show (rdap.events.foldl applyEvent _).createdDateInTime = _
    rw [foldl_applyEvent_field (fun d => d.createdDateInTime) [str "registration"]
      applyEvent_created rdap.events]
    cases lastActionDate [str "registration"] rdap.events <;> rfl
  · show (rdap.events.foldl applyEvent _).expirationDateInTime = _
    rw [foldl_applyEvent_field (fun d => d.expirationDateInTime) [str "expiration"]
      applyEvent_expiration rdap.events]
    cases lastActionDate [str "expiration"] rdap.events <;> rfl
  · show (rdap.events.foldl applyEvent _).updatedDateInTime = _
    rw [foldl_applyEvent_field (fun d => d.updatedDateInTime)
      [str "last changed", str "last update"] applyEvent_updated rdap.events]
    cases lastActionDate [str "last changed", str "last update"] rdap.events <;> rfl

/-- An RDAP response with two parseable expiration events, used to
refute the first-occurrence-wins reading of the event loop. -/
def twoExpirationRdap : RdapDomain :=
  { objectClassName := str "domain", handle := [], ldhName := [],
    nameservers := [], status := [], entities := [],
    events := [⟨str "expiration", str "2025-01-15T00:00:00Z"⟩,
               ⟨str "expiration", str "2026-03-01T12:30:45Z"⟩],
    publicIds := [], links := [] }

/-- C1 counterexample: with two parseable "expiration" events, the
canonical expiresAt is the SECOND event's instant, not the first one,
so the first occurrence does not determine the field and an already-set
field is overwritten. -/
theorem event_mapping_first_occurrence_fails :
    parseEventDate (str "2025-01-15T00:00:00Z") =
        some ⟨2025, 1, 15, 0, 0, 0, 0, 0⟩ ∧
    parseEventDate (str "2026-03-01T12:30:45Z") =
        some ⟨2026, 3, 1, 12, 30, 45, 0, 0⟩ ∧
    ((convertRDAPToWhoisInfo twoExpirationRdap (str "example.com")).domain.bind
        (fun d => d.expirationDateInTime)) = some ⟨2026, 3, 1, 12, 30, 45, 0, 0⟩ ∧
    (⟨2026, 3, 1, 12, 30, 45, 0, 0⟩ : DateTime) ≠ ⟨2025, 1, 15, 0, 0, 0, 0, 0⟩ := by
  refine ⟨by decide, by decide, by decide, by decide⟩

/-- An event whose date parses with neither layout leaves the domain
value untouched. -/
lemma applyEvent_noparse {e : RdapEvent} (hp : parseEventDate e.eventDate = none)
    (d : WhoisDomain) : applyEvent d e = d := by
  unfold applyEvent
  split
  · rfl
  · rw [hp]

/-- C7: normalization is total: the record is always produced, an
unparseable event is skipped without affecting the rest of the
normalization, the concrete event (expiration, 2025-01-15T00:00:00Z)
yields exactly that instant, and a response without events yields a
valid record with an unknown expiration. -/
theorem normalization_never_fails :
    (∀ rdap fqdn, ∃ d, (convertRDAPToWhoisInfo rdap fqdn).domain = some d) ∧
    (∀ (rdap : RdapDomain) (fqdn : GoStr) (pre post : List RdapEvent) (e : RdapEvent),
      parseEventDate e.eventDate = none →
        convertRDAPToWhoisInfo { rdap with events := pre ++ e :: post } fqdn =
          convertRDAPToWhoisInfo { rdap with events := pre ++ post } fqdn) ∧
    (∀ (rdap : RdapDomain) (fqdn : GoStr),
      rdap.events = [⟨str "expiration", str "2025-01-15T00:00:00Z"⟩] →
        ∃ d, (convertRDAPToWhoisInfo rdap fqdn).domain = some d ∧
          d.expirationDateInTime = some ⟨2025, 1, 15, 0, 0, 0, 0, 0⟩) ∧
    (∀ (rdap : RdapDomain) (fqdn : GoStr),
      rdap.events = [] →
        ∃ d, (convertRDAPToWhoisInfo rdap fqdn).domain = some d ∧
          d.expirationDateInTime = none) := by
  refine ⟨fun rdap fqdn => ⟨_, rfl⟩, ?_, ?_, ?_⟩
  · intro rdap fqdn pre post e hp
    unfold convertRDAPToWhoisInfo
    simp only [List.foldl_append, List.foldl_cons]
    rw [applyEvent_noparse hp]
  · intro rdap fqdn hev
    refine ⟨_, rfl, ?_⟩
    show (rdap.events.foldl applyEvent _).expirationDateInTime = _
    rw [hev, foldl_applyEvent_field (fun d => d.expirationDateInTime) [str "expiration"]
      applyEvent_expiration [⟨str "expiration", str "2025-01-15T00:00:00Z"⟩]]
    have hc : lastActionDate [str "expiration"]
        [⟨str "expiration", str "2025-01-15T00:00:00Z"⟩] =
        some ⟨2025, 1, 15, 0, 0, 0, 0, 0⟩ := by decide
    rw [hc]
  · intro rdap fqdn hev
    refine ⟨_, rfl, ?_⟩
    show (rdap.events.foldl applyEvent _).expirationDateInTime = _
    rw [hev]
    rfl

/-- A minimal RDAP response with no events, shared by the C7 witness. -/
def emptyRdap : RdapDomain :=
  { objectClassName := str "domain", handle := [], ldhName := [],
    nameservers := [], status := [], entities := [],
    events := [], publicIds := [], links := [] }

/-- Witness for C7 at concrete inputs: a skipped unparseable event, the
concrete expiration event, and the empty-events case. -/
theorem normalization_never_fails_witness :
    (convertRDAPToWhoisInfo
        { emptyRdap with events := [] ++ ⟨str "expiration", str "not-a-date"⟩ :: [] }
        (str "example.com") =
      convertRDAPToWhoisInfo { emptyRdap with events := [] ++ [] } (str "example.com")) ∧
    (∃ d, (convertRDAPToWhoisInfo
        { emptyRdap with events := [⟨str "expiration", str "2025-01-15T00:00:00Z"⟩] }
        (str "example.com")).domain = some d ∧
      d.expirationDateInTime = some ⟨2025, 1, 15, 0, 0, 0, 0, 0⟩) ∧
    (∃ d, (convertRDAPToWhoisInfo emptyRdap (str "example.com")).domain = some d ∧
      d.expirationDateInTime = none) :=
  ⟨normalization_never_fails.2.1 emptyRdap (str "example.com") [] []
      ⟨str "expiration", str "not-a-date"⟩ (by decide),
   normalization_never_fails.2.2.1 _ (str "example.com") rfl,
   normalization_never_fails.2.2.2 emptyRdap (str "example.com") rfl⟩

/-- The first value of a given vCard field type among the items, under
exactly the casts and the non-emptiness test the code applies. -/
def vcardFieldValue (ftype : GoStr) (items : List JVal) : Option GoStr :=
  (items.filterMap (fun item =>
    match vcardItemEntry item with
    | some (t, v) => if t = ftype then some v else none
    | none => none)).head?

/-- Defining equation of the vCard scan on a cons cell. -/
lemma extractVCardName_cons (item : JVal) (rest : List JVal) (c : Contact) :
    extractVCardName (item :: rest) c =
      match vcardItemEntry item with
      | some (t, v) =>
        if t = str "fn" then { c with name := v }
        else if t = str "org" ∧ c.name = [] then
          extractVCardName rest { c with organization := v, name := v }
        else extractVCardName rest c
      | none => extractVCardName rest c := rfl

/-- The vCard scan on a cons cell whose entry is an (fn/org/other)
field, with the match reduced away. -/
lemma extractVCardName_cons_entry {item : JVal} {t v : GoStr}
    (he : vcardItemEntry item = some (t, v)) (rest : List JVal) (c : Contact) :
    extractVCardName (item :: rest) c =
      (if t = str "fn" then { c with name := v }
       else if t = str "org" ∧ c.name = [] then
         extractVCardName rest { c with organization := v, name := v }
       else extractVCardName rest c) := by
  rw [extractVCardName_cons, he]

/-- The vCard scan skips an item with no usable entry. -/
lemma extractVCardName_cons_none {item : JVal}
    (he : vcardItemEntry item = none) (rest : List JVal) (c : Contact) :
    extractVCardName (item :: rest) c = extractVCardName rest c := by
  rw [extractVCardName_cons, he]

/-- A vCard entry always carries a non-empty value. -/
lemma vcardItemEntry_ne_nil {item : JVal} {t v : GoStr}
    (h : vcardItemEntry item = some (t, v)) : v ≠ [] := by
  unfold vcardItemEntry at h
  repeat' split at h
  all_goals simp_all

/-- A found vCard field value is non-empty. -/
lemma vcardFieldValue_ne_nil {ftype : GoStr} {items : List JVal} {v : GoStr}
    (h : vcardFieldValue ftype items = some v) : v ≠ [] := by
  unfold vcardFieldValue at h
  have hmem := List.mem_of_mem_head? h
  rcases List.mem_filterMap.mp hmem with ⟨item, -, hit⟩
  cases he : vcardItemEntry item with
  | none => rw [he] at hit; simp at hit
  | some tv =>
    rcases tv with ⟨t, w⟩
    rw [he] at hit
    by_cases ht : t = ftype
    · simp only [ht, if_true] at hit
      have hwv : w = v := by simpa using hit
      exact hwv ▸ vcardItemEntry_ne_nil he
    · simp [ht] at hit

/-- The vCard scan never changes the contact ID. -/
lemma extractVCardName_id : ∀ (items : List JVal) (c : Contact),
    (extractVCardName items c).id = c.id := by
  intro items
  induction items with
  | nil => intro c; rfl
  | cons item rest ih =>
    intro c
    cases he : vcardItemEntry item with
    | none => rw [extractVCardName_cons_none he]; exact ih c
    | some tv =>
      rcases tv with ⟨t, v⟩
      rw [extractVCardName_cons_entry he]
      by_cases h1 : t = str "fn"
      · rw [if_pos h1]
      · rw [if_neg h1]
        by_cases h2 : t = str "org" ∧ c.name = []
        · rw [if_pos h2]; exact ih _
        · rw [if_neg h2]; exact ih c

/-- Skipped or non-matching items leave the field searches unchanged. -/
lemma vcardFieldValue_cons_skip {ftype : GoStr} {item : JVal} (rest : List JVal)
    (hno : ∀ v, vcardItemEntry item ≠ some (ftype, v)) :
    vcardFieldValue ftype (item :: rest) = vcardFieldValue ftype rest := by
  unfold vcardFieldValue
  rw [List.filterMap_cons]
  cases he : vcardItemEntry item with
  | none => rfl
  | some tv =>
    rcases tv with ⟨t, v⟩
    have ht : ¬ t = ftype := fun hh => hno v (hh ▸ he)
    simp [ht]

/-- A matching item puts its value at the head of the field search. -/
lemma vcardFieldValue_cons_hit {ftype : GoStr} {item : JVal} {v : GoStr}
    (rest : List JVal) (hhit : vcardItemEntry item = some (ftype, v)) :
    vcardFieldValue ftype (item :: rest) = some v := by
  unfold vcardFieldValue
  rw [List.filterMap_cons, hhit]
  simp

/-- A mismatching entry type never matches the searched field type. -/
lemma entry_type_ne {item : JVal} {t v : GoStr}
    (he : vcardItemEntry item = some (t, v)) {ftype : GoStr} (hne : ¬ t = ftype) :
    ∀ w, vcardItemEntry item ≠ some (ftype, w) := by
  intro w hw
  rw [he] at hw
  exact hne (by simpa using congrArg (fun p => (Option.map Prod.fst p).getD []) hw)

/-- When the name is already set, the scan only lets a later fn item
replace it: org items are ignored. -/
lemma extractVCardName_name_set : ∀ (items : List JVal) (c : Contact), c.name ≠ [] →
    (extractVCardName items c).name = (vcardFieldValue (str "fn") items).getD c.name := by
  intro items
  induction items with
  | nil => intro c _; rfl
  | cons item rest ih =>
    intro c hc
    cases he : vcardItemEntry item with
    | none =>
      rw [extractVCardName_cons_none he,
        vcardFieldValue_cons_skip rest (fun v hv => by rw [he] at hv; cases hv)]
      exact ih c hc
    | some tv =>
      rcases tv with ⟨t, v⟩
      rw [extractVCardName_cons_entry he]
      by_cases h1 : t = str "fn"
      · rw [if_pos h1, vcardFieldValue_cons_hit rest (h1 ▸ he)]
        rfl
      · rw [if_neg h1, vcardFieldValue_cons_skip rest (entry_type_ne he h1)]
        by_cases h2 : t = str "org" ∧ c.name = []
        · exact absurd h2.2 hc
        · rw [if_neg h2]
          exact ih c hc

/-- When the name starts empty, the scan produces the first non-empty
fn value, else the first non-empty org value, else leaves it empty. -/
lemma extractVCardName_name_empty : ∀ (items : List JVal) (c : Contact), c.name = [] →
    (extractVCardName items c).name =
      match vcardFieldValue (str "fn") items with
      | some v => v
      | none =>
        match vcardFieldValue (str "org") items with
        | some v => v
        | none => [] := by
  intro items
  induction items with
  | nil => intro c hc; exact hc
  | cons item rest ih =>
    intro c hc
    cases he : vcardItemEntry item with
    | none =>
      rw [extractVCardName_cons_none he,
        vcardFieldValue_cons_skip rest (fun v hv => by rw [he] at hv; cases hv),
        vcardFieldValue_cons_skip rest (fun v hv => by rw [he] at hv; cases hv)]
      exact ih c hc
    | some tv =>
      rcases tv with ⟨t, v⟩
      rw [extractVCardName_cons_entry he]
      by_cases h1 : t = str "fn"
      · rw [if_pos h1, vcardFieldValue_cons_hit rest (h1 ▸ he)]
      · rw [if_neg h1, vcardFieldValue_cons_skip rest (entry_type_ne he h1)]
        by_cases h2 : t = str "org"
        · rw [if_pos ⟨h2, hc⟩, vcardFieldValue_cons_hit rest (h2 ▸ he)]
          have hv : v ≠ [] := vcardItemEntry_ne_nil he
          rw [extractVCardName_name_set rest _ (by simpa using hv)]
          cases hf : vcardFieldValue (str "fn") rest with
          | some w => simp [hf]
          | none => simp [hf]
        · rw [if_neg (fun hh => h2 hh.1), vcardFieldValue_cons_skip rest (entry_type_ne he h2)]
          exact ih c hc

/-- The vCard items the code scans: the second element of vcardArray
when it is an array, the empty list otherwise. -/
def vcardItemsOf (e : RdapEntity) : List JVal :=
  if 1 < e.vcardArray.length then
    match e.vcardArray.get? 1 with
    | some (JVal.jarr vcardItems) => vcardItems
    | _ => []
  else []

/-- The display name the claim describes: the vCard full name first,
the organization as fallback, the handle as last resort. -/
def registrarDisplayName (e : RdapEntity) : GoStr :=
  match vcardFieldValue (str "fn") (vcardItemsOf e) with
  | some v => v
  | none =>
    match vcardFieldValue (str "org") (vcardItemsOf e) with
    | some v => v
    | none => e.handle

/-- The contact built from a registrar entity carries the handle as ID
and the priority-ordered display name. -/
lemma buildRegistrarContact_spec (e : RdapEntity) :
    (buildRegistrarContact e).id = e.handle ∧
    (buildRegistrarContact e).name = registrarDisplayName e := by
  have hitems : buildRegistrarContact e =
      finishRegistrarName e.handle
        (extractVCardName (vcardItemsOf e) { id := e.handle, name := [], organization := [] }) := by
    unfold buildRegistrarContact vcardItemsOf
    by_cases hl : 1 < e.vcardArray.length
    · rw [if_pos hl, if_pos hl]
      cases hg : e.vcardArray.get? 1 with
      | none => rfl
      | some jv => cases jv <;> rfl
    · rw [if_neg hl, if_neg hl]
      rfl
  rw [hitems]
  have hid : (extractVCardName (vcardItemsOf e)
      { id := e.handle, name := [], organization := [] }).id = e.handle :=
    extractVCardName_id _ _
  have hname := extractVCardName_name_empty (vcardItemsOf e)
    { id := e.handle, name := [], organization := [] } rfl
  unfold finishRegistrarName
  unfold registrarDisplayName
  cases hfn : vcardFieldValue (str "fn") (vcardItemsOf e) with
  | some v =>
    have hv : v ≠ [] := vcardFieldValue_ne_nil hfn
    rw [hfn] at hname
    have hname2 : (extractVCardName (vcardItemsOf e)
        { id := e.handle, name := [], organization := [] }).name = v := hname
    rw [if_neg fun hh => hv (hname2 ▸ hh.1)]
    exact ⟨hid, hname2⟩
  | none =>
    rw [hfn] at hname
    cases horg : vcardFieldValue (str "org") (vcardItemsOf e) with
    | some v =>
      have hv : v ≠ [] := vcardFieldValue_ne_nil horg
      rw [horg] at hname
      have hname2 : (extractVCardName (vcardItemsOf e)
          { id := e.handle, name := [], organization := [] }).name = v := hname
      rw [if_neg fun hh => hv (hname2 ▸ hh.1)]
      exact ⟨hid, hname2⟩
    | none =>
      rw [horg] at hname
      have hname2 : (extractVCardName (vcardItemsOf e)
          { id := e.handle, name := [], organization := [] }).name = [] := hname
      by_cases hh : e.handle ≠ []
      · rw [if_pos ⟨hname2, hh⟩]
        exact ⟨hid, rfl⟩
      · rw [if_neg fun hcontra => hh hcontra.2]
        refine ⟨hid, ?_⟩
        rw [hname2]
        exact (not_not.mp hh).symm

/-- The entity loop is the first-match search over the registrar role. -/
lemma findRegistrar_eq_find? : ∀ es : List RdapEntity,
    findRegistrar es = (es.find? hasRegistrarRole).map buildRegistrarContact := by
  intro es
  induction es with
  | nil => rfl
  | cons e rest ih =>
    unfold findRegistrar
    by_cases hr : hasRegistrarRole e = true
    · rw [if_pos hr, List.find?_cons_of_pos _ hr]
      rfl
    · rw [if_neg hr, List.find?_cons_of_neg _ hr, ih]

/-- C2: only the first entity whose roles contain "registrar" populates
the canonical registrar, carrying the entity handle as ID and a display
name taken from the vCard full name first, the organization as
fallback, and the handle as last resort; later registrar entities are
ignored. -/
theorem registrar_first_entity_name_priority (rdap : RdapDomain) (fqdn : GoStr) :
    ((convertRDAPToWhoisInfo rdap fqdn).registrar).map (fun c => (c.id, c.name)) =
      (rdap.entities.find? hasRegistrarRole).map
        (fun e => (e.handle, registrarDisplayName e)) := by
  show (findRegistrar rdap.entities).map (fun c => (c.id, c.name)) = _
  rw [findRegistrar_eq_find?]
  cases hf : rdap.entities.find? hasRegistrarRole with
  | none => rfl
  | some e =>
    obtain ⟨hid, hname⟩ := buildRegistrarContact_spec e
    simp [hid, hname]

/-- Defining equation of the Go-style dot split on a cons cell. -/
lemma splitOnDot_cons (c : Char) (rest : List Char) :
    splitOnDot (c :: rest) =
      if c = '.' then [] :: splitOnDot rest
      else
        match splitOnDot rest with
        | [] => [[c]]
        | g :: gs => (c :: g) :: gs := rfl

/-- strings.Split never yields an empty list. -/
lemma splitOnDot_ne_nil : ∀ cs : List Char, splitOnDot cs ≠ [] := by
  intro cs
  cases cs with
  | nil => exact fun h => List.noConfusion h
  | cons c rest =>
    rw [splitOnDot_cons]
    by_cases hc : c = '.'
    · rw [if_pos hc]; exact fun h => List.noConfusion h
    · rw [if_neg hc]
      cases splitOnDot rest with
      | nil => exact fun h => List.noConfusion h
      | cons g gs => exact fun h => List.noConfusion h

/-- A one-segment split means the input had no separator and is the
segment itself. -/
lemma splitOnDot_singleton : ∀ (cs : List Char) (g : GoStr),
    splitOnDot cs = [g] → cs = g ∧ '.' ∉ g := by
  intro cs
  induction cs with
  | nil =>
    intro g h
    have h2 : [([] : GoStr)] = [g] := h
    injection h2 with h1 _
    exact ⟨h1, by rw [← h1]; exact List.not_mem_nil _⟩
  | cons c rest ih =>
    intro g h
    rw [splitOnDot_cons] at h
    by_cases hc : c = '.'
    · rw [if_pos hc] at h
      have : splitOnDot rest = [] := by simpa using (List.cons.injEq .. ▸ h).2
      exact absurd this (splitOnDot_ne_nil rest)
    · rw [if_neg hc] at h
      cases hr : splitOnDot rest with
      | nil => exact absurd hr (splitOnDot_ne_nil rest)
      | cons g2 gs =>
        rw [hr] at h
        have h1 : (c :: g2 : GoStr) = g := (List.cons.injEq .. ▸ h).1
        have h2 : gs = [] := (List.cons.injEq .. ▸ h).2
        rw [h2] at hr
        obtain ⟨hrest, hnod⟩ := ih g2 hr
        constructor
        · rw [hrest, h1]
        · rw [← h1]
          intro hmem
          rcases List.mem_cons.mp hmem with hh | hh
          · exact hc hh.symm
          · exact hnod hh

/-- The top-level label of a dotless-prefix input: peeling a dot off
the front does not change it. -/
lemma tldOf_cons_dot (rest : List Char) : tldOf ('.' :: rest) = tldOf rest := by
  unfold tldOf
  rw [splitOnDot_cons, if_pos rfl]
  obtain ⟨g, gs, hg⟩ : ∃ g gs, splitOnDot rest = g :: gs := by
    cases hr : splitOnDot rest with
    | nil => exact absurd hr (splitOnDot_ne_nil rest)
    | cons g gs => exact ⟨g, gs, rfl⟩
  rw [hg, List.getLast?_cons_cons]

/-- The top-level label is dot-free, and on an input with at least two
labels the input decomposes as a prefix, a separator, and the label. -/
lemma tldOf_decomp : ∀ cs : List Char, 2 ≤ (splitOnDot cs).length →
    '.' ∉ tldOf cs ∧ ∃ pre, cs = pre ++ '.' :: tldOf cs := by
  intro cs
  induction cs with
  | nil => intro h; simp [splitOnDot] at h
  | cons c rest ih =>
    intro hlen
    by_cases hc : c = '.'
    · subst hc
      rw [tldOf_cons_dot]
      cases hr : splitOnDot rest with
      | nil => exact absurd hr (splitOnDot_ne_nil rest)
      | cons g gs =>
        cases gs with
        | nil =>
          obtain ⟨hrest, hnod⟩ := splitOnDot_singleton rest g hr
          have htld : tldOf rest = g := by unfold tldOf; rw [hr]; rfl
          refine ⟨htld ▸ hnod, ⟨[], ?_⟩⟩
          rw [htld, ← hrest]
          rfl
        | cons g2 gs2 =>
          have h2 : 2 ≤ (splitOnDot rest).length := by rw [hr]; simp
          obtain ⟨hnod, pre, hdec⟩ := ih h2
          exact ⟨hnod, ⟨'.' :: pre, by rw [List.cons_append, ← hdec]⟩⟩
    · rw [splitOnDot_cons, if_neg hc] at hlen
      cases hr : splitOnDot rest with
      | nil => exact absurd hr (splitOnDot_ne_nil rest)
      | cons g gs =>
        rw [hr] at hlen
        cases gs with
        | nil => simp at hlen
        | cons g2 gs2 =>
          have htld : tldOf (c :: rest) = tldOf rest := by
            unfold tldOf
            rw [splitOnDot_cons, if_neg hc, hr, List.getLast?_cons_cons,
              List.getLast?_cons_cons]
          have h2 : 2 ≤ (splitOnDot rest).length := by rw [hr]; simp
          obtain ⟨hnod, pre, hdec⟩ := ih h2
          rw [htld]
          exact ⟨hnod, ⟨c :: pre, by rw [List.cons_append, ← hdec]⟩⟩

/-- Response handling never reports an invalid domain: that error is
minted only by the label check before any network access. -/
lemma fetchResult_ne_invalid (fqdn : GoStr) (resp : FetchResponse) (s : GoStr) :
    fetchResult fqdn resp ≠ .error (.invalidDomain s) := by
  intro hcontra
  rcases resp with ⟨tr, st, ed, re, dd⟩
  dsimp only [fetchResult] at hcontra
  repeat' split at hcontra
  all_goals simp_all

/-- The record-fetch stage never reports an invalid domain: that error
is minted only by the label check before any network access. -/
lemma fetchDomain_ne_invalid (fetch : GoStr → FetchResponse) (serverURL fqdn s : GoStr) :
    fetchDomain fetch serverURL fqdn ≠ .error (.invalidDomain s) := by
  unfold fetchDomain
  exact fetchResult_ne_invalid fqdn _ s

/-- C3: QueryRDAP fails with the invalid-domain error exactly when the
input splits into fewer than two labels; for such inputs the result
does not depend on the network oracles (no call is consulted) and no
record is produced, and for all other inputs the top-level label it
extracts is the dot-free suffix after the last separator. -/
theorem queryRDAP_invalid_domain (b1 b2 : BootstrapResponse)
    (f1 f2 : GoStr → FetchResponse) (fqdn : GoStr) :
    ((splitOnDot fqdn).length < 2 →
      queryRDAP b1 f1 fqdn = .error (.invalidDomain fqdn) ∧
      queryRDAP b1 f1 fqdn = queryRDAP b2 f2 fqdn) ∧
    (2 ≤ (splitOnDot fqdn).length →
      (∀ s, queryRDAP b1 f1 fqdn ≠ .error (.invalidDomain s)) ∧
      '.' ∉ tldOf fqdn ∧ ∃ pre, fqdn = pre ++ '.' :: tldOf fqdn) := by
  constructor
  · intro hlen
    unfold queryRDAP
    rw [if_pos hlen, if_pos hlen]
    exact ⟨rfl, rfl⟩
  · intro hlen
    have hnot : ¬ (splitOnDot fqdn).length < 2 := by omega
    refine ⟨?_, tldOf_decomp fqdn hlen⟩
    intro s
    unfold queryRDAP
    rw [if_neg hnot]
    exact fetchDomain_ne_invalid f1 _ fqdn s

/-- A bootstrap response whose scan finds nothing, shared by the
resolver witnesses. -/
def bootstrapEmpty : BootstrapResponse :=
  { transportError := none, status := 200, readErr := false, servicesDecode := some [] }

/-- A fetch oracle returning an empty successful RDAP body, shared by
the resolver witnesses. -/
def fetchOk : GoStr → FetchResponse :=
  fun _ =>
    { transportError := none, status := 200, errDecode := none, readErr := false,
      domDecode := some emptyRdap }

/-- A fetch oracle whose transport always fails, shared by the
resolver witnesses. -/
def fetchDown : GoStr → FetchResponse :=
  fun _ =>
    { transportError := some (str "down"), status := 0, errDecode := none,
      readErr := false, domDecode := none }

/-- Witness for C3: a one-label input is rejected independently of the
oracles; a two-label input decomposes around its final dot. -/
theorem queryRDAP_invalid_domain_witness :
    (queryRDAP bootstrapEmpty fetchOk (str "localhost") =
        .error (.invalidDomain (str "localhost")) ∧
      queryRDAP bootstrapEmpty fetchOk (str "localhost") =
        queryRDAP bootstrapEmpty fetchDown (str "localhost")) ∧
    ('.' ∉ tldOf (str "example.com") ∧
      ∃ pre, str "example.com" = pre ++ '.' :: tldOf (str "example.com")) :=
  ⟨(queryRDAP_invalid_domain bootstrapEmpty bootstrapEmpty fetchOk fetchDown
      (str "localhost")).1 (by decide),
   ((queryRDAP_invalid_domain bootstrapEmpty bootstrapEmpty fetchOk fetchOk
      (str "example.com")).2 (by decide)).2⟩

/-- C4: any bootstrap-discovery failure mode (transport error, non-200
status, read failure, undecodable body, or no matching TLD entry) makes
the bootstrap stage return an error, and a bootstrap error never fails
the resolver: the record fetch proceeds against the static fallback
endpoint, whose table lookup is keyed case-insensitively. -/
theorem bootstrap_failure_falls_back (bresp : BootstrapResponse)
    (fetch : GoStr → FetchResponse) (fqdn : GoStr) :
    ((bresp.transportError.isSome ∨ bresp.status ≠ 200 ∨ bresp.readErr = true ∨
        bresp.servicesDecode = none ∨
        (∀ svcs, bresp.servicesDecode = some svcs →
          findServerInServices (tldOf fqdn) svcs = none)) →
      ∃ e, getRDAPServerFromBootstrap bresp (tldOf fqdn) = .error e) ∧
    ((∃ e, getRDAPServerFromBootstrap bresp (tldOf fqdn) = .error e) →
      2 ≤ (splitOnDot fqdn).length →
      queryRDAP bresp fetch fqdn =
        fetchDomain fetch (getFallbackRDAPServer (tldOf fqdn)) fqdn) ∧
    (∀ tld : GoStr, getFallbackRDAPServer tld = getFallbackRDAPServer (toLowerStr tld)) := by
  refine ⟨?_, ?_, ?_⟩
  · rcases bresp with ⟨tr, st, re, sd⟩
    cases tr with
    | some e => exact fun _ => ⟨e, rfl⟩
    | none =>
      intro hdisj
      dsimp only [getRDAPServerFromBootstrap]
      by_cases hst : st ≠ 200
      · rw [if_pos hst]
        exact ⟨_, rfl⟩
      · rw [if_neg hst]
        cases re with
        | true => exact ⟨_, rfl⟩
        | false =>
          cases sd with
          | none => exact ⟨_, rfl⟩
          | some svcs =>
            have hfind : findServerInServices (tldOf fqdn) svcs = none := by
              rcases hdisj with h | h | h | h | h
              · exact absurd h (by simp)
              · exact absurd h hst
              · exact absurd h (by simp)
              · exact absurd h (by simp)
              · exact h svcs rfl
            dsimp only
            rw [hfind]
            exact ⟨_, rfl⟩
  · rintro ⟨e, he⟩ hlen
    unfold queryRDAP
    rw [if_neg (by omega)]
    unfold chosenServerURL
    rw [he]
  · intro tld
    rw [fallback_const, fallback_const]

/-- A bootstrap response with a server error, shared by the C4 witness. -/
def bootstrap500 : BootstrapResponse :=
  { transportError := none, status := 500, readErr := false, servicesDecode := none }

/-- Witness for C4: a 500 bootstrap response yields a bootstrap error
and the resolver proceeds with the fallback endpoint. -/
theorem bootstrap_failure_falls_back_witness :
    (∃ e, getRDAPServerFromBootstrap bootstrap500 (tldOf (str "example.com")) = .error e) ∧
    queryRDAP bootstrap500 fetchOk (str "example.com") =
      fetchDomain fetchOk (getFallbackRDAPServer (tldOf (str "example.com")))
        (str "example.com") :=
  have h := bootstrap_failure_falls_back bootstrap500 fetchOk (str "example.com")
  have herr := h.1 (Or.inr (Or.inl (by decide)))
  ⟨herr, h.2.1 herr (by decide)⟩

/-- C5: on a non-2xx record-fetch response the resolver fails, with the
decoded error payload title when it is present and non-empty, and with
the raw numeric status code otherwise. -/
theorem non2xx_fetch_surfaces_title_or_status (bresp : BootstrapResponse)
    (fetch : GoStr → FetchResponse) (fqdn : GoStr) (resp : FetchResponse)
    (hlen : 2 ≤ (splitOnDot fqdn).length)
    (hresp : fetch (chosenServerURL bresp (tldOf fqdn) ++ str "/domain/" ++ fqdn) = resp)
    (htr : resp.transportError = none)
    (hst : resp.status < 200 ∨ 300 ≤ resp.status) :
    queryRDAP bresp fetch fqdn =
      .error (match resp.errDecode with
        | some rdapErr =>
          if rdapErr.title ≠ [] then RErr.rdapTitle rdapErr.title
          else RErr.statusErr resp.status
        | none => RErr.statusErr resp.status) := by
  unfold queryRDAP
  rw [if_neg (by omega)]
  unfold fetchDomain
  rw [hresp]
  rcases resp with ⟨tr, st, ed, re, dd⟩
  dsimp only at htr hst ⊢
  subst htr
  dsimp only [fetchResult]
  have hne : st ≠ 200 := by omega
  rw [if_pos hne]
  cases ed with
  | none => rfl
  | some rdapErr =>
    dsimp only
    by_cases ht : rdapErr.title ≠ []
    · simp [ht]
    · simp [ht]

/-- A fetch oracle answering 404 with a decoded error payload, shared
by the C5 witness. -/
def fetch404 : GoStr → FetchResponse :=
  fun _ =>
    { transportError := none, status := 404,
      errDecode := some { errorCode := 404, title := str "Not Found", description := [] },
      readErr := false, domDecode := none }

/-- The 404 response itself, shared by the C5 witness. -/
def resp404 : FetchResponse :=
  { transportError := none, status := 404,
    errDecode := some { errorCode := 404, title := str "Not Found", description := [] },
    readErr := false, domDecode := none }

/-- Witness for C5: a 404 response with a decoded payload makes the
resolver surface the payload title. -/
theorem non2xx_fetch_witness :
    queryRDAP bootstrapEmpty fetch404 (str "example.com") =
      .error (RErr.rdapTitle (str "Not Found")) :=
  non2xx_fetch_surfaces_title_or_status bootstrapEmpty fetch404 (str "example.com")
    resp404 (by decide) rfl rfl (Or.inr (by decide))

/-- The cached expiration instant the comparator sees for one domain. -/
def cachedExpiration (getWhois : GoStr → Except GoStr WhoisCache) (d : Domain) :
    Option DateTime :=
  expirationKey (d, whoisOpt getWhois d)

/-- The ordering the expiration sort must realize: a known expiration
precedes an unknown one, and two known expirations are in instant
order. -/
def expPrecedes (k1 k2 : Option DateTime) : Prop :=
  match k2 with
  | none => True
  | some t2 =>
    match k1 with
    | none => False
    | some t1 => dtInstant t1 ≤ dtInstant t2

/-- The comparator in the expiration branch, with the dispatch on the
sort key reduced away. -/
lemma lessFn_exp (x y : Domain × Option WhoisCache) :
    lessFn (str "expiration_date") x y =
      (match expirationKey x with
        | none => false
        | some ti =>
          match expirationKey y with
          | none => true
          | some tj => dtBefore ti tj) := rfl

/-- The non-strict order induced by the expiration comparator. -/
def leExp (a b : Domain × Option WhoisCache) : Bool :=
  !(lessFn (str "expiration_date") b a)

/-- The induced order is exactly the precedes relation on keys. -/
lemma leExp_iff (a b : Domain × Option WhoisCache) :
    leExp a b = true ↔ expPrecedes (expirationKey a) (expirationKey b) := by
  unfold leExp expPrecedes
  rw [lessFn_exp]
  cases hka : expirationKey a <;> cases hkb : expirationKey b <;>
    simp [dtBefore]

/-- The precedes relation is transitive. -/
lemma expPrecedes_trans {k1 k2 k3 : Option DateTime}
    (h12 : expPrecedes k1 k2) (h23 : expPrecedes k2 k3) : expPrecedes k1 k3 := by
  unfold expPrecedes at h12 h23 ⊢
  cases k3 with
  | none => trivial
  | some t3 =>
    cases k2 with
    | none => exact absurd h23 (by simp)
    | some t2 =>
      cases k1 with
      | none => exact absurd h12 (by simp)
      | some t1 => exact le_trans h12 h23

/-- The precedes relation is total. -/
lemma expPrecedes_total (k1 k2 : Option DateTime) :
    expPrecedes k1 k2 ∨ expPrecedes k2 k1 := by
  unfold expPrecedes
  cases k1 with
  | none =>
    cases k2 with
    | none => exact Or.inl trivial
    | some t2 => exact Or.inr trivial
  | some t1 =>
    cases k2 with
    | none => exact Or.inl trivial
    | some t2 => exact le_total (dtInstant t1) (dtInstant t2)

/-- Transitivity of the induced Boolean order. -/
lemma leExp_trans (a b c : Domain × Option WhoisCache)
    (hab : leExp a b) (hbc : leExp b c) : leExp a c :=
  (leExp_iff a c).mpr
    (expPrecedes_trans ((leExp_iff a b).mp hab) ((leExp_iff b c).mp hbc))

/-- Totality of the induced Boolean order. -/
lemma leExp_total (a b : Domain × Option WhoisCache) :
    leExp a b || leExp b a := by
  rw [Bool.or_eq_true]
  rcases expPrecedes_total (expirationKey a) (expirationKey b) with h | h
  · exact Or.inl ((leExp_iff a b).mpr h)
  · exact Or.inr ((leExp_iff b a).mpr h)

/-- C10: sorting by expiration_date permutes the domain list so that
every domain with a known cached expiration precedes every domain
without one, and known expirations appear soonest-first. -/
theorem sort_by_expiration_partitions_and_orders
    (getWhois : GoStr → Except GoStr WhoisCache) (domainList : List Domain) :
    (sortDomainsWithWhois getWhois domainList (str "expiration_date")).Perm domainList ∧
    (sortDomainsWithWhois getWhois domainList (str "expiration_date")).Pairwise
      (fun d1 d2 =>
        expPrecedes (cachedExpiration getWhois d1) (cachedExpiration getWhois d2)) := by
  unfold sortDomainsWithWhois sortSlice
  constructor
  · have hperm :
        ((domainList.map (fun d => (d, whoisOpt getWhois d))).mergeSort
          (fun a b => !(lessFn (str "expiration_date") b a))).Perm
          (domainList.map (fun d => (d, whoisOpt getWhois d))) :=
      List.mergeSort_perm _ _
    have hmap := hperm.map Prod.fst
    rw [List.map_map] at hmap
    have hid : domainList.map (Prod.fst ∘ fun d => (d, whoisOpt getWhois d)) = domainList :=
      List.map_id domainList
    rw [hid] at hmap
    exact hmap
  · have hsorted :=
      List.sorted_mergeSort leExp_trans leExp_total
        (domainList.map (fun d => (d, whoisOpt getWhois d)))
    have hmem : ∀ x ∈ (domainList.map (fun d => (d, whoisOpt getWhois d))).mergeSort leExp,
        x.2 = whoisOpt getWhois x.1 := by
      intro x hx
      rcases List.mem_map.mp (List.mem_mergeSort.mp hx) with ⟨d, -, hd⟩
      rw [← hd]
    have hpair2 :
        ((domainList.map (fun d => (d, whoisOpt getWhois d))).mergeSort leExp).Pairwise
          (fun a b =>
            expPrecedes (cachedExpiration getWhois a.1) (cachedExpiration getWhois b.1)) := by
      refine List.Pairwise.imp_of_mem ?_ hsorted
      intro a b ha hb hr
      have hka : cachedExpiration getWhois a.1 = expirationKey a := by
        unfold cachedExpiration
        rw [← hmem a ha]
      have hkb : cachedExpiration getWhois b.1 = expirationKey b := by
        unfold cachedExpiration
        rw [← hmem b hb]
      rw [hka, hkb]
      exact (leExp_iff a b).mp hr
    exact List.pairwise_map.mpr hpair2

end DomainMonitor
